import Mathlib

/-!
Shallow embedding of `pkg/sbom/generator/cyclonedx/cyclonedx.go` (apko's
CycloneDX SBOM generator) together with proofs about its generation logic.

The Go file builds a CycloneDX document from a resolved package list and
image metadata.  Pure model-building code (`Generate`, `GenerateIndex`,
`archImageComponent` and the dependency-resolution loop) is translated
directly; the JSON serialization (`renderDoc`) is I/O and not modelled.

External collaborators used by the Go code and not present under `src/`:

* `github.com/package-url/packageurl-go` (`purl.NewPackageURL(...).String()`,
  `purl.QualifiersFromMap`) — modelled from the spec, §4.1 (Identifier
  Builder): percent-encoding of name/version/qualifier values and a stable,
  sorted qualifier-key order.
* `github.com/google/go-containerregistry/pkg/name.ParseReference` followed
  by `.Context().RepositoryStr()` — modelled as an explicit function
  parameter `parseRef : String → Option String` returning the repository
  string on success and `none` on parse failure.
* `v1.Hash` (digests with `DeepCopy().String()` and `.Hex`) and the apko
  `Architecture` type (`ToAPK`, `String`, `ToOCIPlatform`) — modelled as
  records of their observable conversion results.
-/

/-- Modelled from the spec: a `v1.Hash` digest value from
go-containerregistry (not under `src/`); `String()` renders
`<algorithm>:<hex>` and `.Hex` is the bare hex part.  `DeepCopy()` is the
identity on the value. -/
structure Digest where
  algorithm : String
  hex : String
deriving DecidableEq, Repr

/-- Rendering of a digest, as `v1.Hash.String()` does. -/
def Digest.render (d : Digest) : String := d.algorithm ++ ":" ++ d.hex

/-- Modelled from the spec: the apko `Architecture` type
(`pkg/build/types`, not under `src/`) observed through the conversions the
generator calls: `ToAPK()`, `String()`, and `ToOCIPlatform()`'s
`Architecture` and `OS` fields. -/
structure Architecture where
  apk : String
  str : String
  ociArch : String
  ociOS : String
deriving DecidableEq, Repr

/-- One per-architecture image entry of the index (`options.ArchImageInfo`). -/
structure ArchImageInfo where
  arch : Architecture
  digest : Digest
deriving DecidableEq, Repr

/-- The `opts.ImageInfo` fields read by the generator. -/
structure ImageInfo where
  arch : Architecture
  repository : String
  name : String
  layerDigest : String
  imageDigest : String
  indexDigest : Digest
  indexMediaType : String
  images : List ArchImageInfo
deriving DecidableEq, Repr

/-- One resolved package record (`opts.Packages` entries). -/
structure Package where
  name : String
  version : String
  description : String
  license : String
  dependencies : List String
deriving DecidableEq, Repr

/-- The `opts.OS` fields read by the generator. -/
structure OSInfo where
  id : String
  name : String
  version : String
deriving DecidableEq, Repr

/-- The slice of `options.Options` the generator reads. -/
structure Options where
  os : OSInfo
  imageInfo : ImageInfo
  packages : List Package
deriving DecidableEq, Repr

/-! ## Identifier Builder (modelled from the spec, §4.1)

The Go code calls `purl.NewPackageURL(type, ns, name, version,
purl.QualifiersFromMap(mm), "").String()`.  That library is not under
`src/`; per the spec the identifier is `pkg:<type>/<ns>/<name>@<version>`
with a `?key=value&...` suffix, name/version/qualifier values are
URL-encoded (Go `url.QueryEscape` semantics: unreserved characters kept,
space becomes `+`, every other byte of the UTF-8 encoding becomes `%XX`),
and qualifier keys are emitted in a stable, sorted order. -/

/-- Characters Go's `url.QueryEscape` leaves unescaped. -/
def isUnreservedChar (c : Char) : Bool :=
  c.isAlphanum || c = '-' || c = '_' || c = '.' || c = '~'

/-- Uppercase hexadecimal digit for a value below 16. -/
def hexDigitChar (n : Nat) : Char :=
  if n < 10 then Char.ofNat (48 + n) else Char.ofNat (55 + n)

/-- UTF-8 byte sequence of a character. -/
def utf8Bytes (c : Char) : List Nat :=
  if c.toNat < 128 then [c.toNat]
  else if c.toNat < 2048 then [192 + c.toNat / 64, 128 + c.toNat % 64]
  else if c.toNat < 65536 then
    [224 + c.toNat / 4096, 128 + c.toNat / 64 % 64, 128 + c.toNat % 64]
  else
    [240 + c.toNat / 262144, 128 + c.toNat / 4096 % 64, 128 + c.toNat / 64 % 64,
      128 + c.toNat % 64]

/-- Percent-escape of one byte: `%XX`. -/
def pctTriple (b : Nat) : List Char := ['%', hexDigitChar (b / 16), hexDigitChar (b % 16)]

/-- Escape of a single character, Go `url.QueryEscape` style. -/
def escapeChar (c : Char) : List Char :=
  if isUnreservedChar c then [c]
  else if c = ' ' then ['+']
  else (utf8Bytes c).flatMap pctTriple

/-- Escape of a character list. -/
def qeData (l : List Char) : List Char := l.flatMap escapeChar

/-- Go `url.QueryEscape` on strings. -/
def queryEscape (s : String) : String := ⟨qeData s.data⟩

/-- One purl qualifier (key/value pair). -/
structure Qualifier where
  key : String
  value : String
deriving DecidableEq, Repr

/-- Boolean lexicographic order on character lists (bytewise order as Go's
`sort.Strings` uses, restricted to the per-character code points). -/
def charListLe : List Char → List Char → Bool
  | [], _ => true
  | _ :: _, [] => false
  | a :: as, b :: bs => if a = b then charListLe as bs else decide (a.toNat < b.toNat)

/-- Boolean string order used to sort qualifier keys. -/
def strLe (a b : String) : Bool := charListLe a.data b.data

/-- Key order on qualifiers. -/
def keyLe (a b : Qualifier) : Prop := strLe a.key b.key = true

instance : DecidableRel keyLe := fun a b =>
  inferInstanceAs (Decidable (strLe a.key b.key = true))

/-- Modelled from the spec: `purl.QualifiersFromMap` turns the Go map into
the qualifier list in stable, sorted key order (§4.1; Go maps have distinct
keys, represented here as an association list). -/
def qualifiersFromMap (mm : List (String × String)) : List Qualifier :=
  List.insertionSort keyLe (mm.map (fun p => Qualifier.mk p.1 p.2))

/-- Split of a character list at a separator character (Go `strings.Split`
semantics: empty parts are kept). -/
def splitSep (sep : Char) : List Char → List (List Char)
  | [] => [[]]
  | c :: t =>
    if c = sep then [] :: splitSep sep t
    else
      match splitSep sep t with
      | [] => [[c]]
      | h :: r => (c :: h) :: r

/-- Join of character lists with a separator character (Go `strings.Join`
semantics). -/
def joinSep (sep : Char) : List (List Char) → List Char
  | [] => []
  | [x] => x
  | x :: xs => x ++ sep :: joinSep sep xs

/-- Namespace segment of the purl: split on `/`, drop empty containers,
escape each, rejoin and terminate with `/`; empty namespace contributes
nothing. -/
def nsData (ns : String) : List Char :=
  if ns = "" then []
  else joinSep '/' (((splitSep '/' ns.data).filter (fun x => x ≠ [])).map qeData) ++ ['/']

/-- Version segment of the purl: `@<escaped version>` when non-empty. -/
def verData (v : String) : List Char :=
  if v = "" then [] else '@' :: qeData v.data

/-- Qualifier suffix of the purl: `?k=v&...` when non-empty. -/
def qsData (qs : List Qualifier) : List Char :=
  if qs = [] then []
  else '?' :: joinSep '&' (qs.map (fun q => q.key.data ++ '=' :: qeData q.value.data))

/-- Character data of a rendered purl. -/
def purlData (ty ns nm ver : String) (qs : List Qualifier) : List Char :=
  ("pkg:" ++ ty ++ "/").data ++ (nsData ns ++ (qeData nm.data ++ (verData ver ++ qsData qs)))

/-- Rendered package identifier, `purl.NewPackageURL(ty, ns, nm, ver, qs,
"").String()` (the subpath argument is always empty in this file). -/
def purlString (ty ns nm ver : String) (qs : List Qualifier) : String :=
  ⟨purlData ty ns nm ver qs⟩

/-! ## Document model (the Go struct types). -/

/-- A CycloneDX hash entry. -/
structure Hash where
  algorithm : String
  value : String
deriving DecidableEq, Repr

/-- A CycloneDX license entry (single expression). -/
structure License where
  expression : String
deriving DecidableEq, Repr

/-- A CycloneDX external reference. -/
structure ExternalReference where
  url : String
  type : String
deriving DecidableEq, Repr

/-- A CycloneDX component; recursive through its child list, field order as
in the Go struct. -/
inductive Component where
  | mk (bomRef : String) (type : String) (name : String) (version : String)
      (description : String) (pUrl : String) (hashes : List Hash)
      (externalReferences : List ExternalReference) (licenses : List License)
      (components : List Component)

/-- Identifier (`bom-ref`) of a component. -/
def Component.bomRef : Component → String
  | .mk b _ _ _ _ _ _ _ _ _ => b

/-- Type tag of a component. -/
def Component.type : Component → String
  | .mk _ t _ _ _ _ _ _ _ _ => t

/-- Name of a component. -/
def Component.name : Component → String
  | .mk _ _ n _ _ _ _ _ _ _ => n

/-- Version of a component. -/
def Component.version : Component → String
  | .mk _ _ _ v _ _ _ _ _ _ => v

/-- Description of a component. -/
def Component.description : Component → String
  | .mk _ _ _ _ d _ _ _ _ _ => d

/-- Purl of a component. -/
def Component.pUrl : Component → String
  | .mk _ _ _ _ _ p _ _ _ _ => p

/-- Hash list of a component. -/
def Component.hashes : Component → List Hash
  | .mk _ _ _ _ _ _ h _ _ _ => h

/-- External references of a component. -/
def Component.externalReferences : Component → List ExternalReference
  | .mk _ _ _ _ _ _ _ e _ _ => e

/-- Licenses of a component. -/
def Component.licenses : Component → List License
  | .mk _ _ _ _ _ _ _ _ l _ => l

/-- Child components of a component. -/
def Component.components : Component → List Component
  | .mk _ _ _ _ _ _ _ _ _ c => c

instance : Inhabited Component := ⟨.mk "" "" "" "" "" "" [] [] [] []⟩

/-- A CycloneDX dependency edge. -/
structure Dependency where
  ref : String
  dependsOn : List String
deriving DecidableEq, Repr

/-- The CycloneDX document envelope. -/
structure Document where
  bomFormat : String
  specVersion : String
  version : Nat
  components : List Component
  dependencies : List Dependency

/-! ## `Generate` (cyclonedx.go lines 44-163). -/

/-- Package purl qualifier map `mm` (line 48): the APK architecture. -/
def pkgQualifiers (opts : Options) : List (String × String) :=
  [("arch", opts.imageInfo.arch.apk)]

/-- Package identifier (lines 53-55; the same expression is used for
`BOMRef`, `PUrl` and the dependency `Ref`). -/
def packagePurl (opts : Options) (pkg : Package) : String :=
  purlString "apk" opts.os.id pkg.name pkg.version (qualifiersFromMap (pkgQualifiers opts))

/-- Package component (lines 52-69): type `operating-system`, license
wrapped as a single-entry list even when empty. -/
def packageComponent (opts : Options) (pkg : Package) : Component :=
  .mk (packagePurl opts pkg) "operating-system" pkg.name pkg.version pkg.description
    (packagePurl opts pkg) [] [] [⟨pkg.license⟩] []

/-- Set of separator characters of `strings.IndexAny(dep, " ~<>=/!")`
(line 81). -/
def depSeparators : List Char := [' ', '~', '<', '>', '=', '/', '!']

/-- Index of the first separator character, `strings.IndexAny` as an
`Option` (line 81; `none` for Go's `-1`). -/
def indexOfSep : List Char → Option Nat
  | [] => none
  | c :: t => if c ∈ depSeparators then some 0 else (indexOfSep t).map (· + 1)

/-- Truncation `dep = dep[:i]` at the first separator when present
(lines 81-84). -/
def truncateDep (dep : String) : String :=
  match indexOfSep dep.data with
  | some i => ⟨dep.data.take i⟩
  | none => dep

/-- The dependency-resolution loop of `Generate` (lines 74-91): skip
strings containing a colon, truncate at the first separator, skip empties,
otherwise append the bare-name identifier (blank version, owning package's
namespace and qualifiers) to the accumulator. -/
def resolveDepLoop (osID : String) (mm : List (String × String)) :
    List String → List String → List String
  | [], acc => acc
  | dep :: rest, acc =>
    if ':' ∈ dep.data then resolveDepLoop osID mm rest acc
    else
      let d := truncateDep dep
      if d = "" then resolveDepLoop osID mm rest acc
      else resolveDepLoop osID mm rest
        (acc ++ [purlString "apk" osID d "" (qualifiersFromMap mm)])

/-- Resolved dependency identifiers of one raw-dependency list. -/
def resolveDepRefs (osID : String) (mm : List (String × String)) (deps : List String) :
    List String :=
  resolveDepLoop osID mm deps []

/-- Dependency edge of one package (lines 93-99). -/
def pkgDependency (opts : Options) (pkg : Package) : Dependency :=
  ⟨packagePurl opts pkg, resolveDepRefs opts.os.id (pkgQualifiers opts) pkg.dependencies⟩

/-- The accumulating loop over `opts.Packages` (lines 50-100): appends one
component and one dependency per package. -/
def buildPkgLists (opts : Options) :
    List Package → List Component × List Dependency → List Component × List Dependency
  | [], acc => acc
  | pkg :: rest, (cs, ds) =>
    buildPkgLists opts rest (cs ++ [packageComponent opts pkg], ds ++ [pkgDependency opts pkg])

/-- Main-purl qualifier map `mmMain` of `Generate` (lines 102-109):
repository URL when set, OCI architecture when the architecture string is
non-empty. -/
def mainQualifiers (ii : ImageInfo) : List (String × String) :=
  (if ii.repository ≠ "" then [("repository_url", ii.repository)] else []) ++
  (if ii.arch.str ≠ "" then [("arch", ii.arch.ociArch)] else [])

/-- Layer component (lines 111-125): OCI identifier from the image name and
layer digest, type `operating-system`, children are the package
components. -/
def layerComponent (opts : Options) : Component :=
  .mk (purlString "oci" "" opts.imageInfo.name opts.imageInfo.layerDigest
      (qualifiersFromMap (mainQualifiers opts.imageInfo)))
    "operating-system" opts.os.name opts.os.version "apko OS layer"
    (purlString "oci" "" opts.imageInfo.name opts.imageInfo.layerDigest
      (qualifiersFromMap (mainQualifiers opts.imageInfo)))
    [] [] [] (buildPkgLists opts opts.packages ([], [])).1

/-- Image component (lines 127-143): OCI identifier from the image name and
image digest, type `container`, empty name and version, single layer
child. -/
def imageComponent (opts : Options) : Component :=
  .mk (purlString "oci" "" opts.imageInfo.name opts.imageInfo.imageDigest
      (qualifiersFromMap (mainQualifiers opts.imageInfo)))
    "container" "" "" "apko container image"
    (purlString "oci" "" opts.imageInfo.name opts.imageInfo.imageDigest
      (qualifiersFromMap (mainQualifiers opts.imageInfo)))
    [] [] [] [layerComponent opts]

/-- `Generate` (lines 44-163) up to the document value handed to
`renderDoc`: scenario B (root = image component) when the image digest is
non-empty, scenario A (root = layer component) otherwise. -/
def generate (opts : Options) : Document :=
  { bomFormat := "CycloneDX"
    specVersion := "1.4"
    version := 1
    components :=
      if opts.imageInfo.imageDigest ≠ "" then [imageComponent opts] else [layerComponent opts]
    dependencies := (buildPkgLists opts opts.packages ([], [])).2 }

/-! ## `GenerateIndex` and `archImageComponent` (lines 208-331). -/

/-- Qualifier map of `archImageComponent` (lines 291-305): repository URL,
OCI architecture, OCI OS and index media type — all read from the top-level
`opts.ImageInfo`, never from the per-architecture entry. -/
def archImageQualifiers (ii : ImageInfo) : List (String × String) :=
  (if ii.repository ≠ "" then [("repository_url", ii.repository)] else []) ++
  (if ii.arch.str ≠ "" then [("arch", ii.arch.ociArch)] else []) ++
  (if ii.arch.ociOS ≠ "" then [("os", ii.arch.ociOS)] else []) ++
  (if ii.indexMediaType ≠ "" then [("mediaType", ii.indexMediaType)] else [])

/-- `archImageComponent` (lines 277-331).  `parseRef` stands for
`name.ParseReference` + `Context().RepositoryStr()`; a parse failure is
tolerated here (`err == nil` guard, lines 279-284) and leaves the
repository name empty, so the fallback literal `image` is used. -/
def archImageComponent (parseRef : String → Option String) (opts : Options)
    (info : ArchImageInfo) : Component :=
  let repoName :=
    if opts.imageInfo.name ≠ "" then (parseRef opts.imageInfo.name).getD "" else ""
  let imageRepoName := if repoName ≠ "" then repoName else "image"
  let p := purlString "oci" "" imageRepoName info.digest.render
    (qualifiersFromMap (archImageQualifiers opts.imageInfo))
  .mk p "container" info.digest.render info.digest.render
    ("apko image for " ++ info.arch.ociOS ++ "/" ++ info.arch.str)
    p [⟨"SHA-256", info.digest.hex⟩] [] [] []

/-- The loop appending one arch-image child per index entry, in input order
(lines 252-257). -/
def addArchImages (parseRef : String → Option String) (opts : Options) :
    List ArchImageInfo → List Component → List Component
  | [], acc => acc
  | info :: rest, acc =>
    addArchImages parseRef opts rest (acc ++ [archImageComponent parseRef opts info])

/-- Qualifier map `mmMain` of `GenerateIndex` (lines 220-229): repository
URL, OCI architecture and index media type. -/
def indexQualifiers (ii : ImageInfo) : List (String × String) :=
  (if ii.repository ≠ "" then [("repository_url", ii.repository)] else []) ++
  (if ii.arch.str ≠ "" then [("arch", ii.arch.ociArch)] else []) ++
  (if ii.indexMediaType ≠ "" then [("mediaType", ii.indexMediaType)] else [])

/-- `GenerateIndex` (lines 208-274) up to the document value handed to
`renderDoc`.  A reference-parse failure is fatal here (lines 212-215).
Note the index component's purl is built from `opts.ImageInfo.ImageDigest`
(line 232), not the index digest. -/
def generateIndex (parseRef : String → Option String) (opts : Options) :
    Except String Document :=
  let base := opts.imageInfo.indexDigest.render
  let step : Except String (String × String) :=
    if opts.imageInfo.name ≠ "" then
      match parseRef opts.imageInfo.name with
      | none => .error "parsing image reference"
      | some r => .ok (r, r ++ "@" ++ base)
    else .ok ("index", base)
  match step with
  | .error e => .error e
  | .ok (repoName, indexComponentName) =>
    let p := purlString "oci" "" repoName opts.imageInfo.imageDigest
      (qualifiersFromMap (indexQualifiers opts.imageInfo))
    .ok
      { bomFormat := "CycloneDX"
        specVersion := "1.4"
        version := 1
        components :=
          [.mk p "container" indexComponentName opts.imageInfo.indexDigest.hex
            "Multi-arch image index" p
            [⟨"SHA-256", opts.imageInfo.indexDigest.hex⟩] [] []
            (addArchImages parseRef opts opts.imageInfo.images [])]
        dependencies := [] }

/-- All component identifiers of a document's tree, root first. -/
def Component.allRefs : Component → List String
  | .mk b _ _ _ _ _ _ _ _ cs => b :: allRefsList cs
where
  /-- Identifiers of a component list. -/
  allRefsList : List Component → List String
  | [] => []
  | c :: cs => c.allRefs ++ allRefsList cs

/-- All component identifiers of a document. -/
def docRefs (doc : Document) : List String :=
  Component.allRefs.allRefsList doc.components

/-! ## Structural lemmas about the accumulating loops. -/

/-- The package loop extends its accumulator by one component and one
dependency edge per package, in input order. -/
theorem buildPkgLists_eq (opts : Options) :
    ∀ (l : List Package) (cs : List Component) (ds : List Dependency),
      buildPkgLists opts l (cs, ds) =
        (cs ++ l.map (packageComponent opts), ds ++ l.map (pkgDependency opts)) := by
  intro l
  induction l with
  | nil => intro cs ds; simp [buildPkgLists]
  | cons pkg rest ih =>
    intro cs ds
    simp only [buildPkgLists, ih, List.map_cons, List.append_assoc, List.cons_append,
      List.nil_append]

/-- The arch-image loop extends its accumulator by one child per index
entry, in input order. -/
theorem addArchImages_eq (parseRef : String → Option String) (opts : Options) :
    ∀ (l : List ArchImageInfo) (acc : List Component),
      addArchImages parseRef opts l acc = acc ++ l.map (archImageComponent parseRef opts) := by
  intro l
  induction l with
  | nil => intro acc; simp [addArchImages]
  | cons info rest ih =>
    intro acc
    simp only [addArchImages, ih, List.map_cons, List.append_assoc, List.cons_append,
      List.nil_append]

/-- Truncation at the first separator index equals the longest
separator-free prefix. -/
theorem indexOfSep_take :
    ∀ l : List Char,
      (match indexOfSep l with
        | some i => l.take i
        | none => l) = l.takeWhile (fun c => !decide (c ∈ depSeparators)) := by
  intro l
  induction l with
  | nil => rfl
  | cons c t ih =>
    by_cases h : c ∈ depSeparators
    · simp [indexOfSep, h, List.takeWhile]
    · cases hio : indexOfSep t with
      | none =>
        rw [hio] at ih
        simp only at ih
        simp [indexOfSep, h, hio, List.takeWhile, ← ih]
      | some i =>
        rw [hio] at ih
        simp only at ih
        simp [indexOfSep, h, hio, List.takeWhile, List.take, ih]

/-- String-level form of `indexOfSep_take`. -/
theorem truncateDep_eq_takeWhile (dep : String) :
    truncateDep dep = ⟨dep.data.takeWhile (fun c => !decide (c ∈ depSeparators))⟩ := by
  unfold truncateDep
  rw [← indexOfSep_take dep.data]
  cases h : indexOfSep dep.data <;> simp

/-- The dependency loop appends exactly the kept, truncated dependencies to
its accumulator, in input order. -/
theorem resolveDepLoop_eq (osID : String) (mm : List (String × String)) :
    ∀ (deps : List String) (acc : List String),
      resolveDepLoop osID mm deps acc =
        acc ++ deps.filterMap (fun dep =>
          if ':' ∈ dep.data then none
          else if truncateDep dep = "" then none
          else some (purlString "apk" osID (truncateDep dep) "" (qualifiersFromMap mm))) := by
  intro deps
  induction deps with
  | nil => intro acc; simp [resolveDepLoop]
  | cons dep rest ih =>
    intro acc
    by_cases h1 : ':' ∈ dep.data
    · simp [resolveDepLoop, h1, ih]
    · by_cases h2 : truncateDep dep = ""
      · simp [resolveDepLoop, h1, h2, ih]
      · simp [resolveDepLoop, h1, h2, ih]

/-! ## Claim C2 — scenario selection in `Generate`. -/

/-- C2: for every `Generate` call on N packages, the dependency list has
exactly N entries (one per package, in input order) and the layer component
has exactly the N package components as children (in input order); with an
empty image digest the document's root list is the layer component alone,
with a non-empty image digest it is the image component alone, whose only
child is the layer component. -/
theorem c2_scenario_shape (opts : Options) :
    (generate opts).dependencies = opts.packages.map (pkgDependency opts)
  ∧ (generate opts).dependencies.length = opts.packages.length
  ∧ (layerComponent opts).components = opts.packages.map (packageComponent opts)
  ∧ (layerComponent opts).components.length = opts.packages.length
  ∧ (generate opts).components =
      (if opts.imageInfo.imageDigest = "" then [layerComponent opts] else [imageComponent opts])
  ∧ (imageComponent opts).components = [layerComponent opts] := by
  refine ⟨?_, ?_, ?_, ?_, ?_, rfl⟩
  · simp [generate, buildPkgLists_eq]
  · simp [generate, buildPkgLists_eq]
  · simp [layerComponent, buildPkgLists_eq, Component.components]
  · simp [layerComponent, buildPkgLists_eq, Component.components]
  · by_cases h : opts.imageInfo.imageDigest = "" <;> simp [generate, h]

/-! ## Claim C3 — the dependency resolver. -/

/-- C3: the dependency loop of `Generate` equals a `filterMap` over the raw
strings (so edges appear in input order and are not deduplicated): a string
containing a colon yields no edge; otherwise the string is truncated at the
first character from the set space, `~`, `<`, `>`, `=`, `/`, `!` (the
longest separator-free prefix); an empty truncation yields no edge; any
other yields exactly one identifier built from the bare name with blank
version and the owning package's namespace and qualifier map. -/
theorem c3_dependency_resolution (osID : String) (mm : List (String × String))
    (deps : List String) :
    resolveDepRefs osID mm deps = deps.filterMap (fun dep =>
      if ':' ∈ dep.data then none
      else if (⟨dep.data.takeWhile (fun c => !decide (c ∈ depSeparators))⟩ : String) = ""
        then none
      else some (purlString "apk" osID
        ⟨dep.data.takeWhile (fun c => !decide (c ∈ depSeparators))⟩ ""
        (qualifiersFromMap mm))) := by
  rw [resolveDepRefs, resolveDepLoop_eq]
  simp only [List.nil_append, truncateDep_eq_takeWhile]

/-! ## Claim C9 — arch-image children are distinguished only by digest. -/

/-- C9: `archImageComponent` reads its qualifier map (`arch`, `os`,
`repository_url`, `mediaType`) from the top-level `opts.ImageInfo`, never
from the per-architecture entry, so two entries with the same digest get
identical identifier, purl, name, version and hashes (only the description
mentions the entry's own architecture), and each child's identifier is the
OCI purl of the entry digest with the index-level qualifier map. -/
theorem c9_arch_children_qualifiers (parseRef : String → Option String) (opts : Options)
    (i1 i2 : ArchImageInfo) (h : i1.digest = i2.digest) :
    (archImageComponent parseRef opts i1).bomRef = (archImageComponent parseRef opts i2).bomRef
  ∧ (archImageComponent parseRef opts i1).pUrl = (archImageComponent parseRef opts i2).pUrl
  ∧ (archImageComponent parseRef opts i1).name = (archImageComponent parseRef opts i2).name
  ∧ (archImageComponent parseRef opts i1).version
      = (archImageComponent parseRef opts i2).version
  ∧ (archImageComponent parseRef opts i1).hashes = (archImageComponent parseRef opts i2).hashes
  ∧ (archImageComponent parseRef opts i1).bomRef =
      purlString "oci" ""
        (if (if opts.imageInfo.name ≠ "" then (parseRef opts.imageInfo.name).getD "" else "")
            ≠ ""
          then (if opts.imageInfo.name ≠ "" then (parseRef opts.imageInfo.name).getD "" else "")
          else "image")
        i1.digest.render
        (qualifiersFromMap (archImageQualifiers opts.imageInfo)) := by
  refine ⟨?_, ?_, ?_, ?_, ?_, rfl⟩ <;>
    simp [archImageComponent, Component.bomRef, Component.pUrl, Component.name,
      Component.version, Component.hashes, h]

/-- Sample architecture used by concrete witnesses. -/
def sampleArch : Architecture := ⟨"x86_64", "amd64", "amd64", "linux"⟩

/-- A second sample architecture (differs from `sampleArch`). -/
def sampleArch2 : Architecture := ⟨"aarch64", "arm64", "arm64", "linux"⟩

/-- Sample options used by concrete witnesses. -/
def sampleOpts : Options :=
  { os := ⟨"alpine", "Alpine Linux", "3.18"⟩
    imageInfo :=
      { arch := sampleArch
        repository := "r.example/repo"
        name := ""
        layerDigest := "sha256:layerdigest"
        imageDigest := ""
        indexDigest := ⟨"sha256", "indexhex"⟩
        indexMediaType := "application/vnd.oci.image.index.v1+json"
        images := [⟨sampleArch, ⟨"sha256", "d1hex"⟩⟩, ⟨sampleArch2, ⟨"sha256", "d2hex"⟩⟩] }
    packages := [⟨"musl", "1.2.4", "c library", "MIT", ["so:libc.so.6", "zlib>=1.2"]⟩] }

/-- Witness for C9 at concrete input: two entries with different
architectures but the same digest yield the same identifier. -/
theorem c9_witness :
    (⟨sampleArch, ⟨"sha256", "same"⟩⟩ : ArchImageInfo).digest
        = (⟨sampleArch2, ⟨"sha256", "same"⟩⟩ : ArchImageInfo).digest
  ∧ (archImageComponent (fun _ => none) sampleOpts ⟨sampleArch, ⟨"sha256", "same"⟩⟩).bomRef
      = (archImageComponent (fun _ => none) sampleOpts ⟨sampleArch2, ⟨"sha256", "same"⟩⟩).bomRef :=
  ⟨rfl, (c9_arch_children_qualifiers (fun _ => none) sampleOpts
    ⟨sampleArch, ⟨"sha256", "same"⟩⟩ ⟨sampleArch2, ⟨"sha256", "same"⟩⟩ rfl).1⟩

/-! ## Claim C10 — the outer image component in scenario B. -/

/-- C10: with a non-empty image digest the document root is the image
component, whose name and version are the empty string; its type is
`container`, its description `apko container image`, its only child the
layer component, its hash, external-reference and license lists empty, and
its identifier and purl the OCI identifier of the image name and image
digest. -/
theorem c10_image_component_fields (opts : Options) (h : opts.imageInfo.imageDigest ≠ "") :
    (generate opts).components = [imageComponent opts]
  ∧ (imageComponent opts).name = ""
  ∧ (imageComponent opts).version = ""
  ∧ (imageComponent opts).type = "container"
  ∧ (imageComponent opts).description = "apko container image"
  ∧ (imageComponent opts).components = [layerComponent opts]
  ∧ (imageComponent opts).hashes = []
  ∧ (imageComponent opts).externalReferences = []
  ∧ (imageComponent opts).licenses = []
  ∧ (imageComponent opts).bomRef =
      purlString "oci" "" opts.imageInfo.name opts.imageInfo.imageDigest
        (qualifiersFromMap (mainQualifiers opts.imageInfo))
  ∧ (imageComponent opts).pUrl = (imageComponent opts).bomRef := by
  refine ⟨by simp [generate, h], rfl, rfl, rfl, rfl, rfl, rfl, rfl, rfl, rfl, rfl⟩

/-- Options with a non-empty image digest, for the C10 witness. -/
def c10Opts : Options :=
  { sampleOpts with
    imageInfo := { sampleOpts.imageInfo with imageDigest := "sha256:imagedigest" } }

/-- Witness for C10 at concrete input. -/
theorem c10_witness :
    c10Opts.imageInfo.imageDigest ≠ ""
  ∧ (generate c10Opts).components = [imageComponent c10Opts]
  ∧ (imageComponent c10Opts).name = ""
  ∧ (imageComponent c10Opts).version = "" := by
  have h := c10_image_component_fields c10Opts (by decide)
  exact ⟨by decide, h.1, h.2.1, h.2.2.1⟩

instance : Inhabited Document := ⟨⟨"", "", 0, [], []⟩⟩

/-! ## Shape of a successful `GenerateIndex` run. -/

/-- Characterization of the document produced by a successful
`generateIndex` call: the repository name is the literal `index` (empty
configured name) or the parsed repository string, the index component name
is the bare digest rendering or `repo@digest`, and the single root holds
one arch-image child per index entry in input order.  The root purl's
version slot is `opts.imageInfo.imageDigest`. -/
theorem generateIndex_ok_shape (parseRef : String → Option String) (opts : Options)
    (doc : Document) (h : generateIndex parseRef opts = .ok doc) :
    ∃ repoName indexComponentName,
      ((opts.imageInfo.name = "" ∧ repoName = "index"
          ∧ indexComponentName = opts.imageInfo.indexDigest.render)
        ∨ (opts.imageInfo.name ≠ "" ∧ parseRef opts.imageInfo.name = some repoName
          ∧ indexComponentName = repoName ++ "@" ++ opts.imageInfo.indexDigest.render))
      ∧ doc.components =
          [Component.mk
            (purlString "oci" "" repoName opts.imageInfo.imageDigest
              (qualifiersFromMap (indexQualifiers opts.imageInfo)))
            "container" indexComponentName opts.imageInfo.indexDigest.hex
            "Multi-arch image index"
            (purlString "oci" "" repoName opts.imageInfo.imageDigest
              (qualifiersFromMap (indexQualifiers opts.imageInfo)))
            [⟨"SHA-256", opts.imageInfo.indexDigest.hex⟩] [] []
            (opts.imageInfo.images.map (archImageComponent parseRef opts))]
      ∧ doc.dependencies = []
      ∧ doc.bomFormat = "CycloneDX" ∧ doc.specVersion = "1.4" ∧ doc.version = 1 := by
  by_cases hn : opts.imageInfo.name = ""
  · refine ⟨"index", opts.imageInfo.indexDigest.render, Or.inl ⟨hn, rfl, rfl⟩, ?_⟩
    simp only [generateIndex, hn, ne_eq, not_true_eq_false, if_false, reduceCtorEq,
      Except.ok.injEq] at h
    subst h
    simp [addArchImages_eq]
  · cases hp : parseRef opts.imageInfo.name with
    | none => simp [generateIndex, hn, hp] at h
    | some r =>
      refine ⟨r, r ++ "@" ++ opts.imageInfo.indexDigest.render, Or.inr ⟨hn, rfl, rfl⟩, ?_⟩
      simp only [generateIndex, hn, ne_eq, not_false_eq_true, if_true, hp,
        Except.ok.injEq] at h
      subst h
      simp [addArchImages_eq]

/-! ## Claim C5 — index fan-out. -/

/-- C5: a successful `GenerateIndex` run yields a single root whose
children are exactly the per-architecture image components, one per index
entry in input order, and each such child carries exactly one hash entry
with algorithm `SHA-256` and that entry's digest hex as value. -/
theorem c5_index_fanout (parseRef : String → Option String) (opts : Options)
    (doc : Document) (h : generateIndex parseRef opts = .ok doc) :
    doc.components.length = 1
  ∧ (doc.components.headD default).components
      = opts.imageInfo.images.map (archImageComponent parseRef opts)
  ∧ (doc.components.headD default).components.length = opts.imageInfo.images.length
  ∧ ∀ info ∈ opts.imageInfo.images,
      (archImageComponent parseRef opts info).hashes = [⟨"SHA-256", info.digest.hex⟩] := by
  obtain ⟨repoName, icName, _, hcomp, _⟩ := generateIndex_ok_shape parseRef opts doc h
  rw [hcomp]
  exact ⟨rfl, by simp [Component.components], by simp [Component.components],
    fun info _ => rfl⟩

/-- Document of the C5 witness run. -/
def c5Doc : Document := ((generateIndex (fun _ => none) sampleOpts).toOption).getD default

/-- Witness for C5 at concrete input: two per-architecture images yield two
children with the expected hashes. -/
theorem c5_witness :
    generateIndex (fun _ => none) sampleOpts = .ok c5Doc
  ∧ (c5Doc.components.headD default).components.length
      = sampleOpts.imageInfo.images.length := by
  have h : generateIndex (fun _ => none) sampleOpts = .ok c5Doc := rfl
  exact ⟨h, (c5_index_fanout (fun _ => none) sampleOpts c5Doc h).2.2.1⟩

/-! ## Claim C6 — index component naming and fallback. -/

/-- C6: on a successful `GenerateIndex` run with an empty configured image
name, the repository fallback is the literal `index` (visible in the root's
identifier) and the root's name is the raw rendered index digest with no
`@` separator; with a parseable configured name the root's name is
`repo@digest`. -/
theorem c6_index_name (parseRef : String → Option String) (opts : Options)
    (doc : Document) (h : generateIndex parseRef opts = .ok doc) :
    (doc.components.headD default).name =
      (if opts.imageInfo.name = "" then opts.imageInfo.indexDigest.render
        else ((parseRef opts.imageInfo.name).getD "index") ++ "@"
          ++ opts.imageInfo.indexDigest.render)
  ∧ (opts.imageInfo.name = "" →
      (doc.components.headD default).bomRef =
        purlString "oci" "" "index" opts.imageInfo.imageDigest
          (qualifiersFromMap (indexQualifiers opts.imageInfo))) := by
  obtain ⟨repoName, icName, hcase, hcomp, _⟩ := generateIndex_ok_shape parseRef opts doc h
  rw [hcomp]
  rcases hcase with ⟨hn, hr, hic⟩ | ⟨hn, hp, hic⟩
  · subst hr
    exact ⟨by simp [Component.name, hn, hic], fun _ => by simp [Component.bomRef]⟩
  · refine ⟨?_, fun hcontra => absurd hcontra hn⟩
    simp [Component.name, hn, hic, hp]

/-- Options with a parseable configured image name, for the C6 witness. -/
def c6Opts : Options :=
  { sampleOpts with
    imageInfo := { sampleOpts.imageInfo with name := "cgr.dev/chainguard/apko:latest" } }

/-- Reference parser of the C6 witness (succeeds on the configured name). -/
def c6Parse : String → Option String :=
  fun s => if s = "cgr.dev/chainguard/apko:latest" then some "chainguard/apko" else none

/-- Document of the C6 witness run with a configured name. -/
def c6DocNamed : Document := ((generateIndex c6Parse c6Opts).toOption).getD default

/-- Document of the C6 witness run with an empty name. -/
def c6DocBare : Document := ((generateIndex (fun _ => none) sampleOpts).toOption).getD default

/-- Witness for C6 at concrete inputs, covering both the empty-name
fallback and the parseable-name case. -/
theorem c6_witness :
    generateIndex c6Parse c6Opts = .ok c6DocNamed
  ∧ (c6DocNamed.components.headD default).name = "chainguard/apko@sha256:indexhex"
  ∧ generateIndex (fun _ => none) sampleOpts = .ok c6DocBare
  ∧ (c6DocBare.components.headD default).name = "sha256:indexhex" := by
  have h1 : generateIndex c6Parse c6Opts = .ok c6DocNamed := rfl
  have h2 : generateIndex (fun _ => none) sampleOpts = .ok c6DocBare := rfl
  exact ⟨h1, (c6_index_name c6Parse c6Opts c6DocNamed h1).1, h2,
    (c6_index_name (fun _ => none) sampleOpts c6DocBare h2).1⟩

/-! ## Claim C4 — asymmetric handling of reference-parse failure. -/

/-- C4: with a non-empty configured image name whose reference parse fails,
`GenerateIndex` aborts with the parse error (no repository-name fallback is
applied), while `archImageComponent` tolerates the same failure silently:
the repository name falls back to empty, hence the literal `image` in the
identifier, and a container component with its hash entry is still
produced. -/
theorem c4_parse_failure_asymmetry (parseRef : String → Option String) (opts : Options)
    (info : ArchImageInfo) (hname : opts.imageInfo.name ≠ "")
    (hfail : parseRef opts.imageInfo.name = none) :
    generateIndex parseRef opts = .error "parsing image reference"
  ∧ (archImageComponent parseRef opts info).bomRef =
      purlString "oci" "" "image" info.digest.render
        (qualifiersFromMap (archImageQualifiers opts.imageInfo))
  ∧ (archImageComponent parseRef opts info).type = "container"
  ∧ (archImageComponent parseRef opts info).hashes = [⟨"SHA-256", info.digest.hex⟩] := by
  refine ⟨?_, ?_, rfl, rfl⟩
  · simp [generateIndex, hname, hfail]
  · simp [archImageComponent, hname, hfail, Component.bomRef]

/-- Options with an unparseable configured image name, for the C4 witness. -/
def c4Opts : Options :=
  { sampleOpts with
    imageInfo := { sampleOpts.imageInfo with name := "not a valid reference" } }

/-- Witness for C4 at concrete input. -/
theorem c4_witness :
    c4Opts.imageInfo.name ≠ ""
  ∧ (fun _ : String => (none : Option String)) c4Opts.imageInfo.name = none
  ∧ generateIndex (fun _ => none) c4Opts = .error "parsing image reference"
  ∧ (archImageComponent (fun _ => none) c4Opts ⟨sampleArch, ⟨"sha256", "d1hex"⟩⟩).type
      = "container" := by
  have h := c4_parse_failure_asymmetry (fun _ => none) c4Opts
    ⟨sampleArch, ⟨"sha256", "d1hex"⟩⟩ (by decide) rfl
  exact ⟨by decide, rfl, h.1, h.2.2.1⟩

/-! ## Claim C1 — what feeds the index component's identifier. -/

/-- Options exhibiting the C1 counterexample: no configured name, an index
digest, and the (index-scenario) empty image digest. -/
def c1Opts : Options :=
  { os := ⟨"alpine", "Alpine Linux", "3.18"⟩
    imageInfo :=
      { arch := ⟨"", "", "", ""⟩
        repository := ""
        name := ""
        layerDigest := ""
        imageDigest := ""
        indexDigest := ⟨"sha256", "abc"⟩
        indexMediaType := ""
        images := [] }
    packages := [] }

/-- C1 counterexample: at this concrete input `GenerateIndex` succeeds and
the index component's identifier is `pkg:oci/index` — the version slot of
the purl holds the (empty) `ImageDigest` option field, not the index digest
`sha256:abc` as the claim states; the identifier built with the index
digest as the version part would differ. -/
theorem c1_counterexample :
    (generateIndex (fun _ => none) c1Opts).toOption.map
        (fun d => (d.components.headD default).bomRef)
      = some "pkg:oci/index"
  ∧ "pkg:oci/index"
      ≠ purlString "oci" "" "index" c1Opts.imageInfo.indexDigest.render
          (qualifiersFromMap (indexQualifiers c1Opts.imageInfo)) :=
  ⟨rfl, by decide⟩

/-- C1 amended: the index component's identifier (BOMRef and purl) is built
from the repository name (parsed from the configured image reference, or
the literal string `index` when no reference is configured) together with
the `ImageDigest` option field — not the index digest — as the version part
of the identifier. -/
theorem c1_amended (parseRef : String → Option String) (opts : Options)
    (doc : Document) (h : generateIndex parseRef opts = .ok doc) :
    (doc.components.headD default).bomRef =
      purlString "oci" ""
        (if opts.imageInfo.name = "" then "index"
          else (parseRef opts.imageInfo.name).getD "index")
        opts.imageInfo.imageDigest
        (qualifiersFromMap (indexQualifiers opts.imageInfo))
  ∧ (doc.components.headD default).pUrl = (doc.components.headD default).bomRef := by
  obtain ⟨repoName, icName, hcase, hcomp, _⟩ := generateIndex_ok_shape parseRef opts doc h
  rw [hcomp]
  rcases hcase with ⟨hn, hr, _⟩ | ⟨hn, hp, _⟩
  · subst hr
    exact ⟨by simp [Component.bomRef, hn], rfl⟩
  · exact ⟨by simp [Component.bomRef, hn, hp], rfl⟩

/-- Document of the C1 witness run. -/
def c1Doc : Document := ((generateIndex (fun _ => none) c1Opts).toOption).getD default

/-- Witness for the amended C1 at concrete input. -/
theorem c1_witness :
    generateIndex (fun _ => none) c1Opts = .ok c1Doc
  ∧ (c1Doc.components.headD default).bomRef =
      purlString "oci" "" "index" c1Opts.imageInfo.imageDigest
        (qualifiersFromMap (indexQualifiers c1Opts.imageInfo)) := by
  have h : generateIndex (fun _ => none) c1Opts = .ok c1Doc := rfl
  exact ⟨h, (c1_amended (fun _ => none) c1Opts c1Doc h).1⟩

/-! ## Order lemmas for the qualifier-key sort. -/

/-- Character code points determine the character. -/
theorem char_toNat_inj {a b : Char} (h : a.toNat = b.toNat) : a = b := by
  rw [← Char.ofNat_toNat a, h, Char.ofNat_toNat]

/-- Totality of the lexicographic order. -/
theorem charListLe_total : ∀ as bs : List Char,
    charListLe as bs = true ∨ charListLe bs as = true := by
  intro as
  induction as with
  | nil => intro bs; left; rfl
  | cons a at' ih =>
    intro bs
    cases bs with
    | nil => right; rfl
    | cons b bt =>
      by_cases hab : a = b
      · subst hab
        simpa [charListLe] using ih bt
      · have hba : ¬ b = a := fun h => hab h.symm
        simp only [charListLe, if_neg hab, if_neg hba]
        rcases Nat.lt_trichotomy a.toNat b.toNat with h | h | h
        · left; exact decide_eq_true h
        · exact absurd (char_toNat_inj h) hab
        · right; exact decide_eq_true h

/-- Transitivity of the lexicographic order. -/
theorem charListLe_trans : ∀ as bs cs : List Char,
    charListLe as bs = true → charListLe bs cs = true → charListLe as cs = true := by
  intro as
  induction as with
  | nil => intros; rfl
  | cons a at' ih =>
    intro bs cs h1 h2
    cases bs with
    | nil => simp [charListLe] at h1
    | cons b bt =>
      cases cs with
      | nil => simp [charListLe] at h2
      | cons c ct =>
        by_cases hab : a = b <;> by_cases hbc : b = c
        · subst hab; subst hbc
          simp only [charListLe, if_pos rfl] at h1 h2 ⊢
          exact ih bt ct h1 h2
        · subst hab
          simp only [charListLe, if_pos rfl, if_neg hbc] at h2
          simp only [charListLe, if_neg hbc]
          exact h2
        · subst hbc
          simp only [charListLe, if_neg hab, if_pos rfl] at h1
          simp only [charListLe, if_neg hab]
          exact h1
        · simp only [charListLe, if_neg hab, if_neg hbc, decide_eq_true_eq] at h1 h2
          have hac : a.toNat < c.toNat := h1.trans h2
          have hne : ¬ a = c := fun h => by subst h; omega
          simp only [charListLe, if_neg hne, decide_eq_true_eq]
          exact hac

/-- Antisymmetry of the lexicographic order. -/
theorem charListLe_antisymm : ∀ as bs : List Char,
    charListLe as bs = true → charListLe bs as = true → as = bs := by
  intro as
  induction as with
  | nil =>
    intro bs h1 h2
    cases bs with
    | nil => rfl
    | cons b bt => simp [charListLe] at h2
  | cons a at' ih =>
    intro bs h1 h2
    cases bs with
    | nil => simp [charListLe] at h1
    | cons b bt =>
      by_cases hab : a = b
      · subst hab
        simp only [charListLe, if_pos rfl] at h1 h2
        rw [ih bt h1 h2]
      · have hba : ¬ b = a := fun h => hab h.symm
        simp only [charListLe, if_neg hab, if_neg hba, decide_eq_true_eq] at h1 h2
        omega

instance : IsTotal Qualifier keyLe := ⟨fun a b => charListLe_total a.key.data b.key.data⟩

instance : IsTrans Qualifier keyLe :=
  ⟨fun a b c h1 h2 => charListLe_trans a.key.data b.key.data c.key.data h1 h2⟩

/-- Strict variant of the key order, used only to apply sorted-permutation
uniqueness (it is antisymmetric even when distinct qualifiers share a
key — which cannot happen for lists coming from a Go map). -/
def keyLt (a b : Qualifier) : Prop := keyLe a b ∧ a.key ≠ b.key

instance : IsAntisymm Qualifier keyLt :=
  ⟨fun a b h1 h2 =>
    absurd (String.ext (charListLe_antisymm a.key.data b.key.data h1.1 h2.1)) h1.2⟩

/-- A key-sorted qualifier list with distinct keys is strictly sorted. -/
theorem sorted_keyLt_of_nodup {l : List Qualifier} (hs : l.Sorted keyLe)
    (hn : (l.map Qualifier.key).Nodup) : l.Sorted keyLt := by
  have hn' : (l.map Qualifier.key).Pairwise (fun a b => a ≠ b) := hn
  have hne : l.Pairwise (fun a b => a.key ≠ b.key) := List.pairwise_map.mp hn'
  exact hs.and hne

/-- `qualifiersFromMap` depends only on the set of map entries: any two
enumeration orders of the same distinct-key entries sort to the same
qualifier list. -/
theorem qualifiersFromMap_perm_eq {l l' : List (String × String)}
    (hperm : l.Perm l') (hnd : (l.map Prod.fst).Nodup) :
    qualifiersFromMap l = qualifiersFromMap l' := by
  have hmk : (l.map (fun p => Qualifier.mk p.1 p.2)).Perm
      (l'.map (fun p => Qualifier.mk p.1 p.2)) := hperm.map _
  have hp : (qualifiersFromMap l).Perm (qualifiersFromMap l') :=
    ((List.perm_insertionSort keyLe _).trans hmk).trans
      (List.perm_insertionSort keyLe _).symm
  have hkeyeq : ((l.map (fun p => Qualifier.mk p.1 p.2)).map Qualifier.key)
      = l.map Prod.fst := by
    rw [List.map_map]
    rfl
  have hk1 : ((qualifiersFromMap l).map Qualifier.key).Nodup := by
    have hkp : ((qualifiersFromMap l).map Qualifier.key).Perm
        ((l.map (fun p => Qualifier.mk p.1 p.2)).map Qualifier.key) :=
      (List.perm_insertionSort keyLe _).map _
    rw [hkeyeq] at hkp
    exact hkp.nodup_iff.mpr hnd
  have hk2 : ((qualifiersFromMap l').map Qualifier.key).Nodup :=
    ((hp.map Qualifier.key).nodup_iff).mp hk1
  exact List.eq_of_perm_of_sorted hp
    (sorted_keyLt_of_nodup (List.sorted_insertionSort keyLe _) hk1)
    (sorted_keyLt_of_nodup (List.sorted_insertionSort keyLe _) hk2)

/-! ## Claim C7 — determinism of identifier construction. -/

/-- C7: identifier construction is deterministic: qualifier keys are
serialized in a stable, sorted order, and the identifier built from a
qualifier map does not depend on the enumeration order of the map's
(distinct-key) entries, so identical logical inputs always produce
byte-identical identifier strings (the model is a pure function of its
inputs, so repeated calls trivially agree). -/
theorem c7_determinism :
    (∀ mm : List (String × String),
      ((qualifiersFromMap mm).map Qualifier.key).Sorted (fun a b => strLe a b = true))
  ∧ (∀ (ty ns nm ver : String) (l l' : List (String × String)),
      l.Perm l' → (l.map Prod.fst).Nodup →
      purlString ty ns nm ver (qualifiersFromMap l)
        = purlString ty ns nm ver (qualifiersFromMap l')) := by
  constructor
  · intro mm
    unfold qualifiersFromMap
    exact List.pairwise_map.mpr (List.sorted_insertionSort keyLe _)
  · intro ty ns nm ver l l' hperm hnd
    rw [qualifiersFromMap_perm_eq hperm hnd]

/-- Witness for C7 at concrete input: two enumeration orders of the same
two-entry map produce the same identifier. -/
theorem c7_witness :
    ([("os", "linux"), ("arch", "amd64")] : List (String × String)).Perm
      [("arch", "amd64"), ("os", "linux")]
  ∧ (([("os", "linux"), ("arch", "amd64")] : List (String × String)).map Prod.fst).Nodup
  ∧ purlString "oci" "" "img" "v" (qualifiersFromMap [("os", "linux"), ("arch", "amd64")])
      = purlString "oci" "" "img" "v" (qualifiersFromMap [("arch", "amd64"), ("os", "linux")]) :=
  ⟨by decide, by decide,
    c7_determinism.2 "oci" "" "img" "v" _ _ (by decide) (by decide)⟩

/-! ## Escape-injectivity machinery (decoder) for claim C8. -/

/-- Bound on character code points. -/
theorem char_toNat_lt (c : Char) : c.toNat < 1114112 := by
  have h : c.toNat = c.val.toNat := rfl
  rcases c.valid with h1 | ⟨h1, h2⟩ <;> omega

/-- Hex digit value, inverse of `hexDigitChar` on values below 16. -/
def hexVal? (c : Char) : Option Nat :=
  if 48 ≤ c.toNat ∧ c.toNat ≤ 57 then some (c.toNat - 48)
  else if 65 ≤ c.toNat ∧ c.toNat ≤ 70 then some (c.toNat - 55)
  else none

/-- `hexVal?` inverts `hexDigitChar` below 16. -/
theorem hexVal_hexDigitChar : ∀ x, x < 16 → hexVal? (hexDigitChar x) = some x := by decide

/-- Parse one `%XX` triple into its byte value. -/
def byteVal? : List Char → Option (Nat × List Char)
  | '%' :: h :: lo :: rest =>
    match hexVal? h, hexVal? lo with
    | some a, some b => some (16 * a + b, rest)
    | _, _ => none
  | _ => none

/-- `byteVal?` inverts `pctTriple` on bytes. -/
theorem byteVal_pctTriple (b : Nat) (hb : b < 256) (r : List Char) :
    byteVal? (pctTriple b ++ r) = some (b, r) := by
  have h1 : b / 16 < 16 := by omega
  have h2 : b % 16 < 16 := by omega
  simp only [pctTriple, List.cons_append, List.nil_append, byteVal?,
    hexVal_hexDigitChar _ h1, hexVal_hexDigitChar _ h2]
  have : 16 * (b / 16) + b % 16 = b := by omega
  rw [this]

/-- Decode a percent-escaped UTF-8 character at the head of the list. -/
def decodePct (l : List Char) : Option (Char × List Char) :=
  match byteVal? l with
  | none => none
  | some (b1, r1) =>
    if b1 < 128 then some (Char.ofNat b1, r1)
    else if b1 < 224 then
      match byteVal? r1 with
      | none => none
      | some (b2, r2) => some (Char.ofNat ((b1 - 192) * 64 + (b2 - 128)), r2)
    else if b1 < 240 then
      match byteVal? r1 with
      | none => none
      | some (b2, r2) =>
        match byteVal? r2 with
        | none => none
        | some (b3, r3) =>
          some (Char.ofNat ((b1 - 224) * 4096 + (b2 - 128) * 64 + (b3 - 128)), r3)
    else
      match byteVal? r1 with
      | none => none
      | some (b2, r2) =>
        match byteVal? r2 with
        | none => none
        | some (b3, r3) =>
          match byteVal? r3 with
          | none => none
          | some (b4, r4) =>
            some (Char.ofNat
              ((b1 - 240) * 262144 + (b2 - 128) * 4096 + (b3 - 128) * 64 + (b4 - 128)), r4)

/-- Decode one escaped character (left inverse of `escapeChar`). -/
def decodeOne : List Char → Option (Char × List Char)
  | [] => none
  | c :: rest =>
    if isUnreservedChar c then some (c, rest)
    else if c = '+' then some (' ', rest)
    else decodePct (c :: rest)

/-- `decodePct` inverts the percent-escaped UTF-8 encoding of any
character. -/
theorem decodePct_utf8 (c : Char) (r : List Char) :
    decodePct ((utf8Bytes c).flatMap pctTriple ++ r) = some (c, r) := by
  have hv := char_toNat_lt c
  rcases Nat.lt_or_ge c.toNat 128 with h1 | h1
  · have hb : utf8Bytes c = [c.toNat] := by
      unfold utf8Bytes
      rw [if_pos h1]
    rw [hb]
    simp only [List.flatMap_cons, List.flatMap_nil, List.append_nil, decodePct,
      byteVal_pctTriple c.toNat (by omega) r]
    rw [if_pos h1, Char.ofNat_toNat]
  · rcases Nat.lt_or_ge c.toNat 2048 with h2 | h2
    · have hb : utf8Bytes c = [192 + c.toNat / 64, 128 + c.toNat % 64] := by
        unfold utf8Bytes
        rw [if_neg (by omega), if_pos h2]
      rw [hb]
      simp only [List.flatMap_cons, List.flatMap_nil, List.append_nil, List.append_assoc,
        decodePct, byteVal_pctTriple (192 + c.toNat / 64) (by omega)
          (pctTriple (128 + c.toNat % 64) ++ r)]
      rw [if_neg (by omega), if_pos (by omega)]
      simp only [byteVal_pctTriple (128 + c.toNat % 64) (by omega) r]
      have harg : (192 + c.toNat / 64 - 192) * 64 + (128 + c.toNat % 64 - 128) = c.toNat := by
        omega
      rw [harg, Char.ofNat_toNat]
    · rcases Nat.lt_or_ge c.toNat 65536 with h3 | h3
      · have hb : utf8Bytes c
            = [224 + c.toNat / 4096, 128 + c.toNat / 64 % 64, 128 + c.toNat % 64] := by
          unfold utf8Bytes
          rw [if_neg (by omega), if_neg (by omega), if_pos h3]
        rw [hb]
        simp only [List.flatMap_cons, List.flatMap_nil, List.append_nil, List.append_assoc,
          decodePct, byteVal_pctTriple (224 + c.toNat / 4096) (by omega)
            (pctTriple (128 + c.toNat / 64 % 64) ++ (pctTriple (128 + c.toNat % 64) ++ r))]
        rw [if_neg (by omega), if_neg (by omega), if_pos (by omega)]
        simp only [byteVal_pctTriple (128 + c.toNat / 64 % 64) (by omega)
          (pctTriple (128 + c.toNat % 64) ++ r)]
        simp only [byteVal_pctTriple (128 + c.toNat % 64) (by omega) r]
        have harg : (224 + c.toNat / 4096 - 224) * 4096 + (128 + c.toNat / 64 % 64 - 128) * 64
            + (128 + c.toNat % 64 - 128) = c.toNat := by omega
        rw [harg, Char.ofNat_toNat]
      · have hb : utf8Bytes c
            = [240 + c.toNat / 262144, 128 + c.toNat / 4096 % 64, 128 + c.toNat / 64 % 64,
               128 + c.toNat % 64] := by
          unfold utf8Bytes
          rw [if_neg (by omega), if_neg (by omega), if_neg (by omega)]
        rw [hb]
        simp only [List.flatMap_cons, List.flatMap_nil, List.append_nil, List.append_assoc,
          decodePct, byteVal_pctTriple (240 + c.toNat / 262144) (by omega)
            (pctTriple (128 + c.toNat / 4096 % 64) ++ (pctTriple (128 + c.toNat / 64 % 64)
              ++ (pctTriple (128 + c.toNat % 64) ++ r)))]
        rw [if_neg (by omega), if_neg (by omega), if_neg (by omega)]
        simp only [byteVal_pctTriple (128 + c.toNat / 4096 % 64) (by omega)
          (pctTriple (128 + c.toNat / 64 % 64) ++ (pctTriple (128 + c.toNat % 64) ++ r))]
        simp only [byteVal_pctTriple (128 + c.toNat / 64 % 64) (by omega)
          (pctTriple (128 + c.toNat % 64) ++ r)]
        simp only [byteVal_pctTriple (128 + c.toNat % 64) (by omega) r]
        have harg : (240 + c.toNat / 262144 - 240) * 262144
            + (128 + c.toNat / 4096 % 64 - 128) * 4096
            + (128 + c.toNat / 64 % 64 - 128) * 64 + (128 + c.toNat % 64 - 128) = c.toNat := by
          omega
        rw [harg, Char.ofNat_toNat]

/-- `decodeOne` inverts `escapeChar` at the head of any stream. -/
theorem decodeOne_escapeChar (c : Char) (r : List Char) :
    decodeOne (escapeChar c ++ r) = some (c, r) := by
  by_cases hu : isUnreservedChar c = true
  · simp [escapeChar, hu, decodeOne]
  · simp only [Bool.not_eq_true] at hu
    by_cases hsp : c = ' '
    · subst hsp
      simp [escapeChar, decodeOne, hu, show isUnreservedChar '+' = false from by decide]
    · have hform : escapeChar c = (utf8Bytes c).flatMap pctTriple := by
        simp [escapeChar, hu, hsp]
      obtain ⟨b, bs, hb⟩ : ∃ b bs, utf8Bytes c = b :: bs := by
        unfold utf8Bytes
        split_ifs <;> exact ⟨_, _, rfl⟩
      have hstream : escapeChar c ++ r
          = '%' :: hexDigitChar (b / 16) :: hexDigitChar (b % 16)
            :: (bs.flatMap pctTriple ++ r) := by
        rw [hform, hb]
        simp [pctTriple]
      rw [hstream]
      simp only [decodeOne, show isUnreservedChar '%' = false from by decide,
        Bool.false_eq_true, if_false, show ('%' = '+') = False from by simp, if_false]
      rw [show ('%' :: hexDigitChar (b / 16) :: hexDigitChar (b % 16)
            :: (bs.flatMap pctTriple ++ r))
          = (utf8Bytes c).flatMap pctTriple ++ r from by rw [hb]; simp [pctTriple]]
      exact decodePct_utf8 c r

/-- The escape of a character is never empty. -/
theorem escapeChar_ne_nil (c : Char) : escapeChar c ≠ [] := by
  unfold escapeChar
  split_ifs with h1 h2
  · simp
  · simp
  · obtain ⟨b, bs, hb⟩ : ∃ b bs, utf8Bytes c = b :: bs := by
      unfold utf8Bytes
      split_ifs <;> exact ⟨_, _, rfl⟩
    rw [hb]
    simp [pctTriple]

/-- Percent-escaping of character lists is injective. -/
theorem qeData_inj : ∀ {l1 l2 : List Char}, qeData l1 = qeData l2 → l1 = l2 := by
  intro l1
  induction l1 with
  | nil =>
    intro l2 h
    cases l2 with
    | nil => rfl
    | cons d s =>
      exfalso
      have h' : ([] : List Char) = escapeChar d ++ qeData s := h
      exact escapeChar_ne_nil d (List.append_eq_nil.mp h'.symm).1
  | cons c t ih =>
    intro l2 h
    cases l2 with
    | nil =>
      exfalso
      have h' : escapeChar c ++ qeData t = ([] : List Char) := h
      exact escapeChar_ne_nil c (List.append_eq_nil.mp h').1
    | cons d s =>
      have h' : escapeChar c ++ qeData t = escapeChar d ++ qeData s := h
      have h1 := decodeOne_escapeChar c (qeData t)
      have h2 := decodeOne_escapeChar d (qeData s)
      rw [h'] at h1
      have hinj := Option.some.inj (h2.symm.trans h1)
      have hc : d = c := congrArg Prod.fst hinj
      have ht : qeData s = qeData t := congrArg Prod.snd hinj
      rw [hc, ih ht.symm]

/-- All UTF-8 bytes are below 256. -/
theorem utf8Bytes_lt (c : Char) : ∀ b ∈ utf8Bytes c, b < 256 := by
  have hv := char_toNat_lt c
  unfold utf8Bytes
  split_ifs with h1 h2 h3 <;> intro b hb <;> simp only [List.mem_cons, List.mem_singleton,
    List.not_mem_nil, or_false] at hb
  · omega
  · rcases hb with h | h <;> omega
  · rcases hb with h | h | h <;> omega
  · rcases hb with h | h | h | h <;> omega

/-- The at-sign never occurs in an escaped character. -/
theorem at_notMem_escapeChar (c : Char) : '@' ∉ escapeChar c := by
  unfold escapeChar
  split_ifs with h1 h2
  · intro hm
    rw [List.mem_singleton] at hm
    subst hm
    exact absurd h1 (by decide)
  · intro hm
    rw [List.mem_singleton] at hm
    exact absurd hm (by decide)
  · intro hm
    rw [List.mem_flatMap] at hm
    obtain ⟨b, hb, hmem⟩ := hm
    have hlt := utf8Bytes_lt c b hb
    have h16a : b / 16 < 16 := by omega
    have h16b : b % 16 < 16 := by omega
    have hhex : ∀ x, x < 16 → hexDigitChar x ≠ '@' := by decide
    simp only [pctTriple, List.mem_cons, List.not_mem_nil, or_false] at hmem
    rcases hmem with h | h | h
    · exact absurd h (by decide)
    · exact hhex _ h16a h.symm
    · exact hhex _ h16b h.symm

/-- The at-sign never occurs in an escaped character list. -/
theorem at_notMem_qeData (l : List Char) : '@' ∉ qeData l := by
  induction l with
  | nil => simp [qeData]
  | cons c t ih =>
    intro hm
    rcases List.mem_append.mp hm with h | h
    · exact at_notMem_escapeChar c h
    · exact ih h

/-- Cancellation around a separator absent from both prefixes. -/
theorem append_cons_cancel {x : Char} :
    ∀ (as cs : List Char) {bs ds : List Char},
      as ++ x :: bs = cs ++ x :: ds → x ∉ as → x ∉ cs → as = cs ∧ bs = ds := by
  intro as
  induction as with
  | nil =>
    intro cs bs ds h hxa hxc
    cases cs with
    | nil => exact ⟨rfl, List.cons.inj h |>.2⟩
    | cons c ct =>
      exfalso
      have hx : x = c := (List.cons.inj h).1
      exact hxc (hx ▸ List.mem_cons_self c ct)
  | cons a at' ih =>
    intro cs bs ds h hxa hxc
    cases cs with
    | nil =>
      exfalso
      have hx : a = x := (List.cons.inj h).1
      exact hxa (hx ▸ List.mem_cons_self a at')
    | cons c ct =>
      have hac : a = c := (List.cons.inj h).1
      have htail : at' ++ x :: bs = ct ++ x :: ds := (List.cons.inj h).2
      have := ih ct htail (fun hm => hxa (List.mem_cons_of_mem a hm))
        (fun hm => hxc (List.mem_cons_of_mem c hm))
      exact ⟨by rw [hac, this.1], this.2⟩

/-- The (escaped name, version segment) encoding is injective on
name/version pairs. -/
theorem nameVer_inj {n1 v1 n2 v2 : String}
    (h : qeData n1.data ++ verData v1 = qeData n2.data ++ verData v2) :
    n1 = n2 ∧ v1 = v2 := by
  by_cases hv1 : v1 = "" <;> by_cases hv2 : v2 = ""
  · subst hv1; subst hv2
    have hz : verData "" = [] := rfl
    rw [hz, List.append_nil, List.append_nil] at h
    exact ⟨String.ext (qeData_inj h), rfl⟩
  · exfalso
    have hz1 : verData v1 = [] := by simp [verData, hv1]
    have hz2 : verData v2 = '@' :: qeData v2.data := by simp [verData, hv2]
    rw [hz1, hz2, List.append_nil] at h
    exact at_notMem_qeData n1.data
      (h ▸ List.mem_append_right (qeData n2.data) (List.mem_cons_self '@' _))
  · exfalso
    have hz1 : verData v1 = '@' :: qeData v1.data := by simp [verData, hv1]
    have hz2 : verData v2 = [] := by simp [verData, hv2]
    rw [hz1, hz2, List.append_nil] at h
    exact at_notMem_qeData n2.data
      (h.symm ▸ List.mem_append_right (qeData n1.data) (List.mem_cons_self '@' _))
  · have hz1 : verData v1 = '@' :: qeData v1.data := by simp [verData, hv1]
    have hz2 : verData v2 = '@' :: qeData v2.data := by simp [verData, hv2]
    rw [hz1, hz2] at h
    obtain ⟨hn, hv⟩ := append_cons_cancel (qeData n1.data) (qeData n2.data) h
      (at_notMem_qeData n1.data) (at_notMem_qeData n2.data)
    exact ⟨String.ext (qeData_inj hn), String.ext (qeData_inj hv)⟩

/-- For fixed type, namespace and qualifier suffix, the rendered purl
determines the name and version. -/
theorem purl_nm_ver_inj {ty ns : String} {qs : List Qualifier} {n1 v1 n2 v2 : String}
    (h : purlString ty ns n1 v1 qs = purlString ty ns n2 v2 qs) : n1 = n2 ∧ v1 = v2 := by
  have hd : purlData ty ns n1 v1 qs = purlData ty ns n2 v2 qs := congrArg String.data h
  unfold purlData at hd
  have h1 := List.append_cancel_left hd
  have h2 := List.append_cancel_left h1
  rw [← List.append_assoc, ← List.append_assoc] at h2
  have h3 := List.append_cancel_right h2
  exact nameVer_inj h3

/-- An `apk`-type purl never equals an `oci`-type purl. -/
theorem purl_apk_ne_oci (ns1 n1 v1 : String) (qs1 : List Qualifier)
    (ns2 n2 v2 : String) (qs2 : List Qualifier) :
    purlString "apk" ns1 n1 v1 qs1 ≠ purlString "oci" ns2 n2 v2 qs2 := by
  intro h
  have hd : purlData "apk" ns1 n1 v1 qs1 = purlData "oci" ns2 n2 v2 qs2 :=
    congrArg String.data h
  unfold purlData at hd
  have e1 : ("pkg:" ++ "apk" ++ "/" : String).data
      = ['p', 'k', 'g', ':', 'a', 'p', 'k', '/'] := rfl
  have e2 : ("pkg:" ++ "oci" ++ "/" : String).data
      = ['p', 'k', 'g', ':', 'o', 'c', 'i', '/'] := rfl
  rw [e1, e2] at hd
  simp at hd

/-- Identifiers collected from the package components: one per package. -/
theorem allRefsList_map_package (opts : Options) :
    ∀ pkgs : List Package,
      Component.allRefs.allRefsList (pkgs.map (packageComponent opts))
        = pkgs.map (packagePurl opts) := by
  intro pkgs
  induction pkgs with
  | nil => rfl
  | cons p t ih =>
    have hp : Component.allRefs (packageComponent opts p) = [packagePurl opts p] := rfl
    simp only [List.map_cons, Component.allRefs.allRefsList, hp, ih, List.cons_append,
      List.nil_append]

/-- Identifiers of the layer subtree: the layer's, then one per package. -/
theorem allRefs_layer (opts : Options) :
    (layerComponent opts).allRefs
      = (layerComponent opts).bomRef :: opts.packages.map (packagePurl opts) := by
  have hch : (buildPkgLists opts opts.packages ([], [])).1
      = opts.packages.map (packageComponent opts) := by
    rw [buildPkgLists_eq]
    simp
  show (layerComponent opts).bomRef
      :: Component.allRefs.allRefsList (buildPkgLists opts opts.packages ([], [])).1 = _
  rw [hch, allRefsList_map_package]

/-- All identifiers of a generated document: the root chain, then one per
package. -/
theorem docRefs_generate (opts : Options) :
    docRefs (generate opts) =
      (if opts.imageInfo.imageDigest = ""
        then (layerComponent opts).bomRef :: opts.packages.map (packagePurl opts)
        else (imageComponent opts).bomRef :: (layerComponent opts).bomRef
          :: opts.packages.map (packagePurl opts)) := by
  by_cases h : opts.imageInfo.imageDigest = ""
  · rw [if_pos h]
    show Component.allRefs.allRefsList (generate opts).components = _
    have hc : (generate opts).components = [layerComponent opts] := by simp [generate, h]
    rw [hc]
    show (layerComponent opts).allRefs ++ [] = _
    rw [List.append_nil, allRefs_layer]
  · rw [if_neg h]
    show Component.allRefs.allRefsList (generate opts).components = _
    have hc : (generate opts).components = [imageComponent opts] := by simp [generate, h]
    rw [hc]
    show (imageComponent opts).allRefs ++ [] = _
    rw [List.append_nil]
    show (imageComponent opts).bomRef :: ((layerComponent opts).allRefs ++ []) = _
    rw [List.append_nil, allRefs_layer]

/-! ## Claim C8 — identifier uniqueness across the generated tree. -/

/-- Options exhibiting the C8 counterexample: the layer digest equals the
image digest, making the image and layer components share one identifier. -/
def c8Opts : Options :=
  { os := ⟨"alpine", "Alpine Linux", "3.18"⟩
    imageInfo :=
      { arch := ⟨"", "", "", ""⟩
        repository := ""
        name := "img"
        layerDigest := "sha256:same"
        imageDigest := "sha256:same"
        indexDigest := ⟨"", ""⟩
        indexMediaType := ""
        images := [] }
    packages := [] }

/-- C8 counterexample: at this concrete input the packages trivially have
pairwise distinct (name, version) pairs, yet the image component and its
layer child — two different tree positions — carry the same identifier, so
the document's identifiers are not pairwise distinct. -/
theorem c8_counterexample :
    (c8Opts.packages.map (fun p => (p.name, p.version))).Nodup
  ∧ (generate c8Opts).components = [imageComponent c8Opts]
  ∧ (imageComponent c8Opts).components = [layerComponent c8Opts]
  ∧ (imageComponent c8Opts).bomRef = (layerComponent c8Opts).bomRef
  ∧ ¬ (docRefs (generate c8Opts)).Nodup := by
  refine ⟨by decide,
    by simp [generate, show c8Opts.imageInfo.imageDigest ≠ "" from by decide], rfl, rfl,
    by decide⟩

/-- C8 amended: no two components at different tree positions of a
`Generate` document share an identifier, provided the input packages have
pairwise distinct (name, version) pairs AND, when the image digest is
non-empty, it differs from the layer digest. -/
theorem c8_amended (opts : Options)
    (hpkg : (opts.packages.map (fun p => (p.name, p.version))).Nodup)
    (hdig : opts.imageInfo.imageDigest ≠ "" →
      opts.imageInfo.imageDigest ≠ opts.imageInfo.layerDigest) :
    (docRefs (generate opts)).Nodup := by
  have hmapeq : opts.packages.map (packagePurl opts)
      = (opts.packages.map (fun p => (p.name, p.version))).map
        (fun pr => purlString "apk" opts.os.id pr.1 pr.2
          (qualifiersFromMap (pkgQualifiers opts))) := by
    rw [List.map_map]
    rfl
  have hinj : Function.Injective (fun pr : String × String =>
      purlString "apk" opts.os.id pr.1 pr.2 (qualifiersFromMap (pkgQualifiers opts))) := by
    intro pr1 pr2 hh
    obtain ⟨h1, h2⟩ := purl_nm_ver_inj hh
    rw [Prod.ext_iff]
    exact ⟨h1, h2⟩
  have hpkgrefs : (opts.packages.map (packagePurl opts)).Nodup := by
    rw [hmapeq]
    exact hpkg.map hinj
  have hlayer_notin : (layerComponent opts).bomRef ∉ opts.packages.map (packagePurl opts) := by
    intro hm
    obtain ⟨p, _, he⟩ := List.mem_map.mp hm
    exact purl_apk_ne_oci opts.os.id p.name p.version
      (qualifiersFromMap (pkgQualifiers opts)) "" opts.imageInfo.name
      opts.imageInfo.layerDigest (qualifiersFromMap (mainQualifiers opts.imageInfo)) he
  rw [docRefs_generate]
  by_cases h : opts.imageInfo.imageDigest = ""
  · rw [if_pos h]
    exact List.nodup_cons.mpr ⟨hlayer_notin, hpkgrefs⟩
  · rw [if_neg h]
    refine List.nodup_cons.mpr ⟨?_, List.nodup_cons.mpr ⟨hlayer_notin, hpkgrefs⟩⟩
    intro hm
    rcases List.mem_cons.mp hm with he | hm2
    · obtain ⟨-, hv⟩ := purl_nm_ver_inj he
      exact hdig h hv
    · obtain ⟨p, _, he⟩ := List.mem_map.mp hm2
      exact purl_apk_ne_oci opts.os.id p.name p.version
        (qualifiersFromMap (pkgQualifiers opts)) "" opts.imageInfo.name
        opts.imageInfo.imageDigest (qualifiersFromMap (mainQualifiers opts.imageInfo)) he

/-- Options for the C8 witness: distinct package pairs and distinct
layer/image digests. -/
def c8WitOpts : Options :=
  { c10Opts with
    packages := [⟨"musl", "1.2.4", "c library", "MIT", []⟩,
      ⟨"zlib", "1.3", "compression", "Zlib", []⟩] }

/-- Witness for the amended C8 at concrete input. -/
theorem c8_witness :
    (c8WitOpts.packages.map (fun p => (p.name, p.version))).Nodup
  ∧ (c8WitOpts.imageInfo.imageDigest ≠ "" →
      c8WitOpts.imageInfo.imageDigest ≠ c8WitOpts.imageInfo.layerDigest)
  ∧ (docRefs (generate c8WitOpts)).Nodup :=
  ⟨by decide, by decide, c8_amended c8WitOpts (by decide) (by decide)⟩
